import Mathlib

set_option maxRecDepth 8000

/-!
Verification of the expense-assistant services: a shallow embedding of the
rule-based classifier (`backend/services/classifier_service.py`), the receipt
parser (`backend/services/parser_service.py`), the anomaly detector
(`backend/services/analytics_service.py`) and the forecast / trend engine
(`backend/services/prediction_service.py`), together with theorems settling
the behavioural claims made about them.

Conventions of the embedding:
* Python strings are modelled as `List Char`; text handled by the services is
  ASCII, so `Char.toLower`, `Char.toUpper`, `Char.isAlpha` and `Char.isLower`
  coincide with Python's behaviour on the inputs considered.
* Python floats are idealised as exact rationals (`ℚ`); the one place the code
  takes a square root (`np.std`) is idealised as `Real.sqrt` over `ℝ`.
* Fallible operations return `Option`.
-/

/-- Python's whitespace characters, the class matched by `str.strip`
and by the regex class `\s`. -/
def pySpace (c : Char) : Bool :=
  c = ' ' || c = '\t' || c = '\n' || c = '\r' || c = '\x0b' || c = '\x0c'

/-- Python `str.strip()`: drop leading and trailing whitespace. -/
def stripCh (s : List Char) : List Char :=
  ((s.dropWhile pySpace).reverse.dropWhile pySpace).reverse

/-- Does `p` occur at the head of `s`?  (Helper for substring containment.) -/
def beginsWith : List Char → List Char → Bool
  | [], _ => true
  | _ :: _, [] => false
  | p :: ps, c :: cs => p == c && beginsWith ps cs

/-- Python's `pat in s`: does `pat` occur as a contiguous substring of `s`? -/
def occursIn (pat : List Char) : List Char → Bool
  | [] => beginsWith pat []
  | c :: cs => beginsWith pat (c :: cs) || occursIn pat cs

/-- Lower-case a string, modelling Python `str.lower()` on ASCII text. -/
def lowerCh (s : List Char) : List Char := s.map Char.toLower

/-- The category keyword table of `backend/config/constants.py`
(`EXPENSE_CATEGORIES`), in declaration order.  Only the slug and the
keyword list are embedded: the classifier reads no other field. -/
def expenseCategories : List (String × List String) :=
  [("food", ["walmart", "target", "whole foods", "kroger", "safeway",
             "restaurant", "bar", "cafe", "starbucks", "mcdonalds", "subway"]),
   ("transportation", ["gas", "shell", "chevron", "exxon", "bp", "metro",
             "bus", "train", "uber", "lyft", "parking"]),
   ("housing", ["rent", "water", "electricity", "gas", "internet", "phone",
             "at&t", "verizon", "comcast"]),
   ("health", ["pharmacy", "cvs", "walgreens", "doctor", "hospital",
             "clinic", "gym", "fitness", "planet fitness"]),
   ("entertainment", ["cinema", "theater", "concert", "spotify", "netflix",
             "hulu", "disney", "steam", "playstation", "xbox"]),
   ("shopping", ["amazon", "ebay", "best buy", "target", "macy",
             "nordstrom", "ikea", "home depot"]),
   ("education", ["university", "college", "school", "course", "udemy",
             "coursera", "book", "amazon books"]),
   ("other", [])]

/-- Keyword score of one category against a lower-cased text, as computed by
the inner loop of `ExpenseClassifier._classify_by_rules`: a keyword occurring
in the text scores 3 when it equals the whole stripped text and 1 otherwise. -/
def keywordMatches (text : List Char) (kws : List String) : Nat :=
  kws.foldl (fun acc kw =>
    let k := lowerCh kw.data
    if occursIn k text then
      if k == stripCh text then acc + 3 else acc + 1
    else acc) 0

/-- The category loop of `_classify_by_rules`: fold over the table keeping the
first category whose score strictly exceeds the best so far, starting from
`(None, 0)`. -/
def bestRule (text : List Char) : Option String × Nat :=
  expenseCategories.foldl (fun st c =>
    let m := keywordMatches text c.2
    if st.2 < m then (some c.1, m) else st) (none, 0)

/-- Embedding of `ExpenseClassifier._classify_by_rules`: lower-case the text,
find the best-scoring category, and return it with confidence
`min (0.5 + 0.2 * matches) 1`; with no match return `("others", 0)`. -/
def classifyByRules (textIn : String) : String × ℚ :=
  let text := lowerCh textIn.data
  let b := bestRule text
  match b.1 with
  | some cat => if 0 < b.2 then (cat, min (1/2 + (b.2 : ℚ) * (2/10)) 1) else ("others", 0)
  | none => ("others", 0)

/-- Embedding of the synthetic training rows built by
`ExpenseClassifier._create_default_model`: for each keyword of each category,
the keyword itself and the variant "purchase at X", each labelled with the
keyword's category, in table order.  (The parallel `X_train`/`y_train` lists
of the source are represented as one list of pairs.) -/
def bootstrapTrainingData : List (String × String) :=
  (expenseCategories.map (fun c =>
    (c.2.map (fun kw => [(kw, c.1), ("purchase at " ++ kw, c.1)])).flatten)).flatten

/-- Split on newline characters, keeping empty pieces, modelling Python
`text.split('\n')`. -/
def splitLines : List Char → List (List Char)
  | [] => [[]]
  | c :: cs =>
    if c = '\n' then [] :: splitLines cs
    else
      match splitLines cs with
      | [] => [[c]]
      | l :: ls => (c :: l) :: ls

/-- Python `str.isupper()` modelled for ASCII text: at least one letter and
no lower-case letter. -/
def pyIsUpper (s : List Char) : Bool :=
  s.any (fun c => c.isAlpha) && s.all (fun c => !c.isLower)

/-- Characters kept by `re.sub` with class complement of upper-case letters
and whitespace in `extract_merchant`. -/
def keepUpperSpace (s : List Char) : List Char :=
  s.filter (fun c => ('A' ≤ c && c ≤ 'Z') || pySpace c)

/-- The fixed list of known merchant substrings of
`ReceiptParser.extract_merchant`. -/
def knownMerchants : List String :=
  ["mercadona", "carrefour", "lidl", "dia", "alcampo",
   "eroski", "aldi", "hipercor", "el corte ingles",
   "decathlon", "media markt", "fnac", "ikea", "zara",
   "mcdonalds", "burger king", "telepizza", "dominos"]

/-- The all-uppercase branch of `extract_merchant` on one stripped line:
a line longer than 3 characters that is upper-case yields its upper-case
letters and spaces, stripped, provided more than 3 characters survive. -/
def upperHit (line : List Char) : Option (List Char) :=
  if 3 < line.length && pyIsUpper line then
    let cleaned := keepUpperSpace line
    if 3 < cleaned.length then some (stripCh cleaned) else none
  else none

/-- The known-merchant branch of `extract_merchant` on one stripped line:
the first known merchant occurring in the lower-cased line, upper-cased. -/
def merchantHit (line : List Char) : Option (List Char) :=
  (knownMerchants.find? (fun m => occursIn m.data (lowerCh line))).map
    (fun m => m.data.map Char.toUpper)

/-- The loop of `extract_merchant` over the first five lines: strip each line
and return the first hit of the uppercase branch or, failing that, of the
known-merchant branch. -/
def firstFiveScan : List (List Char) → Option (List Char)
  | [] => none
  | l :: ls =>
    let line := stripCh l
    match upperHit line with
    | some r => some r
    | none =>
      match merchantHit line with
      | some r => some r
      | none => firstFiveScan ls

/-- Embedding of `ReceiptParser.extract_merchant`: scan the first five lines
for an uppercase or known-merchant hit; otherwise return the first stripped
line longer than 3 characters, truncated to 50 characters; otherwise `none`. -/
def extractMerchant (text : String) : Option String :=
  let lines := splitLines text.data
  match firstFiveScan (lines.take 5) with
  | some r => some ⟨r⟩
  | none =>
    match (lines.map stripCh).find? (fun l => 3 < l.length) with
    | some l => some ⟨l.take 50⟩
    | none => none

/-- Structured receipt data as read by
`ReceiptParser.calculate_confidence`; of the parsed dictionary only the four
fields the confidence computation reads are embedded.  The datetime carried
by `date` is opaque here (any present datetime is truthy in Python). -/
structure ParsedReceipt where
  date : Option Int
  total : Option ℚ
  merchant : Option String
  items : List (String × ℚ)
deriving DecidableEq

/-- Truthiness of the date field: a present datetime. -/
def dateSignal (d : ParsedReceipt) : Bool := d.date.isSome

/-- The total test of `calculate_confidence`: the field is truthy (present
and nonzero) and greater than zero. -/
def totalSignal (d : ParsedReceipt) : Bool :=
  match d.total with
  | some t => decide (t ≠ 0) && decide (0 < t)
  | none => false

/-- Truthiness of the merchant field: a present, non-empty string. -/
def merchantSignal (d : ParsedReceipt) : Bool :=
  match d.merchant with
  | some m => !m.isEmpty
  | none => false

/-- Truthiness of the items field: a non-empty list. -/
def itemsSignal (d : ParsedReceipt) : Bool := !d.items.isEmpty

/-- Embedding of `ReceiptParser.calculate_confidence`: accumulate 0.3 for a
date, 0.4 for a positive total, 0.2 for a merchant and 0.1 for items, then
cap at 1. -/
def calculateConfidence (d : ParsedReceipt) : ℚ :=
  let c0 : ℚ := 0
  let c1 := if dateSignal d then c0 + 3/10 else c0
  let c2 := if totalSignal d then c1 + 4/10 else c1
  let c3 := if merchantSignal d then c2 + 2/10 else c2
  let c4 := if itemsSignal d then c3 + 1/10 else c3
  min c4 1

/-- One-step case-insensitive literal match: consume `pat` from the head of
`s` comparing lower-cased characters, returning the rest. -/
def dropLitCI : List Char → List Char → Option (List Char)
  | [], s => some s
  | _ :: _, [] => none
  | p :: ps, c :: cs => if p.toLower = c.toLower then dropLitCI ps cs else none

/-- Match the amount shape of the OCR patterns, one or more digits, one of
the two decimal separators, then exactly two digits, at the head of the
input; returns the matched characters and the rest.  The digit run is taken
greedily; since digits, separators and the following context classes are
disjoint, the greedy scan agrees with backtracking regex matching. -/
def matchNumber (s : List Char) : Option (List Char × List Char) :=
  let ds := s.takeWhile Char.isDigit
  let r1 := s.dropWhile Char.isDigit
  if ds.isEmpty then none
  else
    match r1 with
    | sep :: d1 :: d2 :: rest =>
      if (sep = '.' || sep = ',') && d1.isDigit && d2.isDigit then
        some (ds ++ [sep, d1, d2], rest)
      else none
    | _ => none

/-- Match a keyword-prefixed amount pattern of `OCR_PATTERNS` at the head of
`s`: the literal (case-insensitively), one or more colon-or-space characters,
then an amount. -/
def matchKeyAmount (lit : List Char) (s : List Char) : Option (List Char × List Char) := do
  let r1 ← dropLitCI lit s
  match r1 with
  | c :: _ =>
    if c = ':' || pySpace c then
      matchNumber (r1.dropWhile (fun x => x = ':' || pySpace x))
    else none
  | [] => none

/-- Match the dollar-prefixed amount pattern at the head of `s`: a dollar
sign, optional whitespace, then an amount. -/
def matchDollarAmount (s : List Char) : Option (List Char × List Char) :=
  match s with
  | '$' :: rest => matchNumber (rest.dropWhile pySpace)
  | _ => none

/-- Match the dollar-suffixed amount pattern at the head of `s`: an amount,
optional whitespace, then a dollar sign. -/
def matchAmountDollar (s : List Char) : Option (List Char × List Char) := do
  let (cap, r1) ← matchNumber s
  match r1.dropWhile pySpace with
  | '$' :: rest => some (cap, rest)
  | _ => none

/-- Match the broader fallback pattern of `extract_total` at the head of `s`:
an optional euro sign, optional whitespace, an amount, then trailing optional
whitespace and euro sign (both consumed when present, as the greedy regex
does). -/
def matchFallback (s : List Char) : Option (List Char × List Char) := do
  let s1 := match s with | '€' :: r => r | _ => s
  let (cap, r1) ← matchNumber (s1.dropWhile pySpace)
  let r2 := r1.dropWhile pySpace
  match r2 with
  | '€' :: rest => some (cap, rest)
  | _ => some (cap, r2)

/-- Scan the text left to right as `re.finditer` does: at each position try
the matcher; on success record the capture and continue after the match,
otherwise advance one character.  The fuel argument bounds the recursion and
is supplied as the input length plus one, enough for any run since every
step consumes at least one character. -/
def scanWith (m : List Char → Option (List Char × List Char)) :
    Nat → List Char → List (List Char)
  | 0, _ => []
  | _ + 1, [] => []
  | fuel + 1, c :: cs =>
    match m (c :: cs) with
    | some (cap, rest) => cap :: scanWith m fuel rest
    | none => scanWith m fuel cs

/-- All non-overlapping captures of a matcher over a text. -/
def findAll (m : List Char → Option (List Char × List Char)) (s : List Char) :
    List (List Char) :=
  scanWith m (s.length + 1) s

/-- Numeric value of a digit run. -/
def digitsToNat (ds : List Char) : Nat :=
  ds.foldl (fun n c => 10 * n + (c.toNat - '0'.toNat)) 0

/-- Value of a captured amount: the comma separator is normalised to a point
as in the source, and the two fractional digits contribute hundredths.
Python's float conversion is idealised as exact. -/
def parseAmount (cap : List Char) : ℚ :=
  let ds := cap.takeWhile Char.isDigit
  let frac := (cap.dropWhile Char.isDigit).drop 1
  (digitsToNat ds : ℚ) + (digitsToNat frac : ℚ) / 100

/-- The candidate amounts of the primary pattern set of
`ReceiptParser.extract_total`, pattern by pattern in the order of
`OCR_PATTERNS` and left to right within each pattern. -/
def primaryAmounts (s : List Char) : List ℚ :=
  (findAll (matchKeyAmount "total".data) s ++
   findAll (matchKeyAmount "amount".data) s ++
   findAll matchDollarAmount s ++
   findAll matchAmountDollar s).map parseAmount

/-- The candidate amounts of the fallback currency pattern of
`extract_total`. -/
def fallbackAmounts (s : List Char) : List ℚ :=
  (findAll matchFallback s).map parseAmount

/-- Embedding of `ReceiptParser.extract_total`: the maximum primary
candidate when any exists, otherwise the maximum fallback candidate, and
`none` when both pattern sets find nothing. -/
def extractTotal (text : String) : Option ℚ :=
  match (primaryAmounts text.data).max? with
  | some m => some m
  | none =>
    match (fallbackAmounts text.data).max? with
    | some m => some m
    | none => none

/-- An expense row as read by `AnalyticsService.detect_anomalies`: a record
identity and an amount.  The other columns (date, merchant, category) are
carried through unchanged by the detector and are omitted. -/
structure Expense where
  id : Nat
  amount : ℚ
deriving DecidableEq

/-- Sum of a list of rationals. -/
def qsum (l : List ℚ) : ℚ := l.foldl (· + ·) 0

/-- Population mean of the amounts, `np.mean`. -/
def amountMean (es : List Expense) : ℚ :=
  qsum (es.map (·.amount)) / (es.length : ℚ)

/-- Population variance of the amounts, the square of `np.std`. -/
def amountVar (es : List Expense) : ℚ :=
  qsum (es.map (fun e => (e.amount - amountMean es) ^ 2)) / (es.length : ℚ)

/-- The anomaly test of `detect_anomalies` in squared form: the source
compares `z = |amount - mean| / std` with the threshold where
`std = sqrt variance`; for a positive variance and a nonnegative threshold
this is equivalent to the squared comparison below, which keeps the
embedding inside the rationals (the equivalence is proved in
`zscore_gt_iff`). -/
def anomalyTest (es : List Expense) (τ : ℚ) (e : Expense) : Bool :=
  decide (τ ^ 2 * amountVar es < (e.amount - amountMean es) ^ 2)

/-- Stable insertion into a list sorted descending by key: the new element
goes after every earlier element of greater or equal key, matching the
stability of Python's `list.sort` with a reversed comparison. -/
def insertByKey (key : Expense → ℚ) (x : Expense) : List Expense → List Expense
  | [] => [x]
  | y :: ys => if key x < key y then y :: insertByKey key x ys else x :: y :: ys

/-- Stable sort, descending by key. -/
def sortDescBy (key : Expense → ℚ) : List Expense → List Expense
  | [] => []
  | x :: xs => insertByKey key x (sortDescBy key xs)

/-- The default z-score threshold, `ANOMALY_THRESHOLDS` of
`backend/config/constants.py`. -/
def anomalyZThreshold : ℚ := 3

/-- Embedding of `AnalyticsService.detect_anomalies`: empty below ten
records or at zero deviation (`std == 0` is equivalent to zero variance),
otherwise the records passing the z-score test, sorted descending by
z-score (equivalently, by squared deviation) and truncated to twenty. -/
def detectAnomalies (es : List Expense) (τ : ℚ) : List Expense :=
  if es.length < 10 then []
  else if amountVar es = 0 then []
  else
    (sortDescBy (fun e => (e.amount - amountMean es) ^ 2)
      (es.filter (anomalyTest es τ))).take 20

/-- The z-score of a record as the source computes it, over the reals. -/
noncomputable def zScoreReal (es : List Expense) (e : Expense) : ℝ :=
  |(e.amount : ℝ) - (amountMean es : ℝ)| / Real.sqrt ((amountVar es : ℚ) : ℝ)

/-- An expense row as read by the prediction service: the calendar month of
the date as an absolute month index (only the month bucket of a date is
observable through the monthly aggregation) and an amount. -/
structure ExpenseRow where
  month : Nat
  amount : ℚ
deriving DecidableEq

/-- Monthly aggregation by `pd.Grouper` with month frequency: one bucket for
every calendar month from the earliest to the latest date, in chronological
order, each holding the sum of the amounts falling in it (zero for empty
months). -/
def monthlyTotals (rows : List ExpenseRow) : List ℚ :=
  match rows.map (·.month) with
  | [] => []
  | m :: ms =>
    let lo := ms.foldl Nat.min m
    let hi := ms.foldl Nat.max m
    (List.range (hi - lo + 1)).map (fun i =>
      qsum ((rows.filter (fun r => r.month = lo + i)).map (·.amount)))

/-- Centered second moment of the month indices 0, ..., n-1 against the
bucket totals, the numerator of the least-squares slope. -/
def sxyOf (ys : List ℚ) : ℚ :=
  let xbar := ((ys.length : ℚ) - 1) / 2
  let ybar := qsum ys / (ys.length : ℚ)
  qsum (ys.enum.map (fun p => ((p.1 : ℚ) - xbar) * (p.2 - ybar)))

/-- Sum of squared centered month indices, the denominator of the
least-squares slope. -/
def sxxOf (ys : List ℚ) : ℚ :=
  let xbar := ((ys.length : ℚ) - 1) / 2
  qsum (ys.enum.map (fun p => ((p.1 : ℚ) - xbar) ^ 2))

/-- Least-squares slope of `LinearRegression` fitted on month index against
bucket total.  With a single bucket the centered design column is zero and
the minimum-norm solution has slope zero, which the rational division by
zero also yields. -/
def fitSlope (ys : List ℚ) : ℚ := sxyOf ys / sxxOf ys

/-- Least-squares intercept of the same fit. -/
def fitIntercept (ys : List ℚ) : ℚ :=
  qsum ys / (ys.length : ℚ) - fitSlope ys * (((ys.length : ℚ) - 1) / 2)

/-- Fitted value at month index `x`. -/
def fitted (ys : List ℚ) (x : ℚ) : ℚ := fitIntercept ys + fitSlope ys * x

/-- Residuals of the fit on the observed buckets. -/
def residualsOf (ys : List ℚ) : List ℚ :=
  ys.enum.map (fun p => p.2 - fitted ys (p.1 : ℚ))

/-- Population variance of the residuals, the square of the
`np.std(residuals)` standard error of the source. -/
def resVariance (ys : List ℚ) : ℚ :=
  let rs := residualsOf ys
  let rbar := qsum rs / (rs.length : ℚ)
  qsum (rs.map (fun r => (r - rbar) ^ 2)) / (rs.length : ℚ)

/-- The configured confidence level, `PREDICTION_CONFIG` of
`backend/config/constants.py`. -/
def confidenceLevel : ℚ := 95 / 100

/-- The z-score the source selects: 1.96 at the 0.95 level, 2.576
otherwise. -/
def zOf (c : ℚ) : ℚ := if c = 95 / 100 then 196 / 100 else 2576 / 1000

/-- The configured minimum number of raw records for forecasting. -/
def minDataPoints : Nat := 30

/-- The raw linear prediction for the k-th future period: the source
evaluates the fit at month index `n + k` where `n` is the number of
buckets. -/
def rawPred (ys : List ℚ) (k : Nat) : ℚ :=
  fitted ys ((ys.length : ℚ) + (k : ℚ))

/-- One forecast point as returned by `predict_future_expenses`; the
formatted month label is omitted (a pure date-formatting detail). -/
structure ForecastPoint where
  predicted : ℝ
  lower : ℝ
  upper : ℝ
  confidence : ℚ

/-- The k-th forecast point: margin of error `z * std(residuals)`, the
predicted amount clamped to be nonnegative, the lower bound clamped to be
nonnegative, the upper bound unclamped. -/
noncomputable def forecastPoint (ys : List ℚ) (k : Nat) : ForecastPoint :=
  let pred : ℝ := (rawPred ys k : ℚ)
  let margin : ℝ := ((zOf confidenceLevel : ℚ) : ℝ) * Real.sqrt ((resVariance ys : ℚ) : ℝ)
  { predicted := max 0 pred
    lower := max 0 (pred - margin)
    upper := pred + margin
    confidence := confidenceLevel }

/-- Embedding of `PredictionService.predict_future_expenses` (no category
filter): `none` for the insufficient-data refusal below thirty records,
otherwise the forecast points for periods 1 through `periods`. -/
noncomputable def predictFutureExpenses (rows : List ExpenseRow) (periods : Nat) :
    Option (List ForecastPoint) :=
  if rows.length < minDataPoints then none
  else some ((List.range periods).map (fun j => forecastPoint (monthlyTotals rows) (j + 1)))

/-- Trend classification outcomes of `PredictionService.detect_trend`. -/
inductive Trend
  | insufficient
  | increasing
  | decreasing
  | stable
deriving DecidableEq

/-- Embedding of `PredictionService.detect_trend`: insufficient data below
two monthly buckets, otherwise the slope classified against the fixed
thresholds, strictly above 10 increasing and strictly below -10
decreasing. -/
def detectTrend (rows : List ExpenseRow) : Trend :=
  let ys := monthlyTotals rows
  if ys.length < 2 then Trend.insufficient
  else if 10 < fitSlope ys then Trend.increasing
  else if fitSlope ys < -10 then Trend.decreasing
  else Trend.stable

/-- Thirty records over three consecutive months with monthly sums 10, 20
and 30: a perfectly linear series, so the residual standard error is zero. -/
def seriesLinearUp : List ExpenseRow :=
  List.replicate 10 ⟨0, 1⟩ ++ List.replicate 10 ⟨1, 2⟩ ++ List.replicate 10 ⟨2, 3⟩

/-- Thirty records over three consecutive months with monthly sums 200, 100
and 0: a perfectly linear, steeply decreasing series whose raw prediction
for the next period is -200. -/
def seriesSteepDown : List ExpenseRow :=
  List.replicate 10 ⟨0, 20⟩ ++ List.replicate 10 ⟨1, 10⟩ ++ List.replicate 10 ⟨2, 0⟩

/-- Two records in two consecutive months: exactly two monthly buckets with
a fitted slope of 100. -/
def seriesTwoMonths : List ExpenseRow := [⟨0, 0⟩, ⟨1, 100⟩]

/-- Two records in two consecutive months with a fitted slope of exactly
10. -/
def seriesSlopeTen : List ExpenseRow := [⟨0, 0⟩, ⟨1, 10⟩]

/-- Seventeen expense records: sixteen of amount 0 and one of amount 17, so
the mean is 1, the population variance is 16, and the single outlier has
z-score 4. -/
def seventeenExpenses : List Expense :=
  (List.range 16).map (fun i => ⟨i, 0⟩) ++ [⟨16, 17⟩]

/-- The forecast point produced for `seriesLinearUp`: prediction 50 with a
zero margin of error. -/
noncomputable def pointFifty : ForecastPoint :=
  { predicted := 50, lower := 50, upper := 50, confidence := 95 / 100 }

/-- The forecast point produced for `seriesSteepDown`: a clamped prediction
and lower bound of 0 but an upper bound of -200. -/
noncomputable def pointNegUpper : ForecastPoint :=
  { predicted := 0, lower := 0, upper := -200, confidence := 95 / 100 }

/-- A fully populated parsed receipt. -/
def fullReceipt : ParsedReceipt :=
  { date := some 0, total := some 6, merchant := some "WALMART",
    items := [("MILK", 2)] }

theorem foldl_matches_const (text : List Char) (kws : List String) (acc : Nat)
    (h : ∀ kw ∈ kws, occursIn (lowerCh kw.data) text = false) :
    kws.foldl (fun acc kw =>
      let k := lowerCh kw.data
      if occursIn k text then
        if k == stripCh text then acc + 3 else acc + 1
      else acc) acc = acc := by
  induction kws generalizing acc with
  | nil => rfl
  | cons k ks ih =>
    have hk := h k (List.mem_cons_self _ _)
    simp only [List.foldl_cons, hk, Bool.false_eq_true, if_false]
    exact ih acc (fun kw hkw => h kw (List.mem_cons_of_mem _ hkw))

theorem keywordMatches_eq_zero (text : List Char) (kws : List String)
    (h : ∀ kw ∈ kws, occursIn (lowerCh kw.data) text = false) :
    keywordMatches text kws = 0 :=
  foldl_matches_const text kws 0 h

theorem foldl_best_const (text : List Char) (cats : List (String × List String))
    (h : ∀ c ∈ cats, keywordMatches text c.2 = 0) :
    cats.foldl (fun st c =>
      let m := keywordMatches text c.2
      if st.2 < m then (some c.1, m) else st) ((none : Option String), 0) = (none, 0) := by
  induction cats with
  | nil => rfl
  | cons c cs ih =>
    have hc := h c (List.mem_cons_self _ _)
    simp only [List.foldl_cons, hc, Nat.lt_irrefl, if_false]
    exact ih (fun d hd => h d (List.mem_cons_of_mem _ hd))

/-- C4 (amended): for every combined input text in which no configured
category keyword occurs as a substring, the rule-based stage returns the
literal slug "others" — which is not a member of the category table, whose
catch-all slug is "other" — with confidence exactly 0. -/
theorem rules_no_match_gives_others (text : String)
    (h : ∀ c ∈ expenseCategories, ∀ kw ∈ c.2,
        occursIn (lowerCh kw.data) (lowerCh text.data) = false) :
    classifyByRules text = ("others", 0) := by
  have hb : bestRule (lowerCh text.data) = (none, 0) := by
    unfold bestRule
    exact foldl_best_const _ _ (fun c hc => keywordMatches_eq_zero _ _ (h c hc))
  unfold classifyByRules
  simp only [hb]

/-- C4 counterexample: on the keyword-free text "zzz" the rule-based stage
returns the slug "others" with confidence 0; "others" is not a member of the
closed slug set of the keyword table (whose member is "other"), refuting the
claim that the no-match result is the table slug `other`. -/
theorem rules_no_match_counterexample :
    classifyByRules "zzz" = ("others", 0) ∧
    "others" ∉ expenseCategories.map Prod.fst ∧
    "others" ≠ "other" := by decide

theorem rules_no_match_gives_others_witness :
    (∀ c ∈ expenseCategories, ∀ kw ∈ c.2,
        occursIn (lowerCh kw.data) (lowerCh "qqq".data) = false) ∧
    classifyByRules "qqq" = ("others", 0) :=
  ⟨by decide, rules_no_match_gives_others "qqq" (by decide)⟩

/-- C6 (amended): when no persisted classifier snapshot exists, every
keyword of every category contributes exactly two synthetic training rows —
the keyword itself and the single templated variant "purchase at X" — each
labelled with the keyword's category; the "X store" variant exists only in
the offline training script, not in the bootstrap. -/
theorem bootstrap_rows_per_keyword (c : String) (kws : List String) (k : String)
    (hc : (c, kws) ∈ expenseCategories) (hk : k ∈ kws) :
    (k, c) ∈ bootstrapTrainingData ∧
    ("purchase at " ++ k, c) ∈ bootstrapTrainingData ∧
    bootstrapTrainingData.length =
      2 * (expenseCategories.map (fun p => p.2.length)).sum := by
  refine ⟨?_, ?_, by decide⟩
  · exact List.mem_flatten.mpr ⟨_, List.mem_map_of_mem _ hc,
      List.mem_flatten.mpr ⟨_, List.mem_map_of_mem _ hk, by simp⟩⟩
  · exact List.mem_flatten.mpr ⟨_, List.mem_map_of_mem _ hc,
      List.mem_flatten.mpr ⟨_, List.mem_map_of_mem _ hk, by simp⟩⟩

/-- C6 counterexample: "walmart" is a keyword of the category "food" and
contributes its two bootstrap rows, but the claimed third row
"walmart store" is absent from the bootstrap training set. -/
theorem bootstrap_no_store_variant :
    ("walmart", "food") ∈ bootstrapTrainingData ∧
    ("purchase at walmart", "food") ∈ bootstrapTrainingData ∧
    ("walmart store", "food") ∉ bootstrapTrainingData := by decide

theorem bootstrap_rows_per_keyword_witness :
    ("food", ["walmart", "target", "whole foods", "kroger", "safeway",
      "restaurant", "bar", "cafe", "starbucks", "mcdonalds", "subway"]) ∈
        expenseCategories ∧
    "walmart" ∈ ["walmart", "target", "whole foods", "kroger", "safeway",
      "restaurant", "bar", "cafe", "starbucks", "mcdonalds", "subway"] ∧
    (("walmart", "food") ∈ bootstrapTrainingData ∧
     ("purchase at walmart", "food") ∈ bootstrapTrainingData ∧
     bootstrapTrainingData.length =
       2 * (expenseCategories.map (fun p => p.2.length)).sum) :=
  ⟨by decide, by decide,
   bootstrap_rows_per_keyword "food"
     ["walmart", "target", "whole foods", "kroger", "safeway",
      "restaurant", "bar", "cafe", "starbucks", "mcdonalds", "subway"]
     "walmart" (by decide) (by decide)⟩

theorem foldl_best_isSome (text : List Char) (cats : List (String × List String))
    (st : Option String × Nat) (hst : 0 < st.2 → st.1.isSome) :
    0 < (cats.foldl (fun st c =>
      let m := keywordMatches text c.2
      if st.2 < m then (some c.1, m) else st) st).2 →
    (cats.foldl (fun st c =>
      let m := keywordMatches text c.2
      if st.2 < m then (some c.1, m) else st) st).1.isSome := by
  induction cats generalizing st with
  | nil => exact hst
  | cons c cs ih =>
    simp only [List.foldl_cons]
    apply ih
    dsimp only
    split
    · intro _
      rfl
    · exact hst

theorem bestRule_none_snd (text : List Char) :
    (bestRule text).1 = none → (bestRule text).2 = 0 := by
  intro h
  by_contra hn
  have h1 : 0 < (bestRule text).2 := Nat.pos_of_ne_zero hn
  have h2 : (bestRule text).1.isSome :=
    foldl_best_isSome text expenseCategories (none, 0)
      (fun hx => absurd hx (Nat.lt_irrefl 0)) h1
  rw [h] at h2
  cases h2

/-- C10: the confidence of the rule-based stage is either exactly 0 or at
least 0.7 and at most 1 — no value strictly between 0 and 0.7 occurs, so
every non-zero rule result passes the non-zero arbitration test — and it
exceeds the 0.8 short-circuit threshold of `classify` exactly when the best
category collected at least two match points. -/
theorem rule_confidence_gap (text : String) :
    ((classifyByRules text).2 = 0 ∨
      (7 / 10 ≤ (classifyByRules text).2 ∧ (classifyByRules text).2 ≤ 1)) ∧
    (8 / 10 < (classifyByRules text).2 ↔ 2 ≤ (bestRule (lowerCh text.data)).2) ∧
    ((classifyByRules text).2 ≠ 0 → 0 < (classifyByRules text).2) := by
  have hmain :
      ((classifyByRules text).2 = 0 ∧ (bestRule (lowerCh text.data)).2 < 2) ∨
      ((classifyByRules text).2 = 7 / 10 ∧ (bestRule (lowerCh text.data)).2 < 2) ∨
      (7 / 10 ≤ (classifyByRules text).2 ∧ (classifyByRules text).2 ≤ 1 ∧
        8 / 10 < (classifyByRules text).2 ∧ 2 ≤ (bestRule (lowerCh text.data)).2) := by
    unfold classifyByRules
    cases hb : (bestRule (lowerCh text.data)).1 with
    | none =>
      have h0 := bestRule_none_snd _ hb
      simp only [hb, h0]
      left
      exact ⟨by trivial, by omega⟩
    | some cat =>
      simp only [hb]
      rcases Nat.lt_or_ge (bestRule (lowerCh text.data)).2 1 with h1 | h1
      · have h0 : (bestRule (lowerCh text.data)).2 = 0 := by omega
        simp only [h0]
        left
        exact ⟨by norm_num, by omega⟩
      rcases Nat.lt_or_ge (bestRule (lowerCh text.data)).2 2 with h2 | h2
      · have h0 : (bestRule (lowerCh text.data)).2 = 1 := by omega
        simp only [h0]
        right; left
        refine ⟨?_, by omega⟩
        norm_num
      · right; right
        have hpos : 0 < (bestRule (lowerCh text.data)).2 := by omega
        simp only [if_pos hpos]
        have hc : (2 : ℚ) ≤ ((bestRule (lowerCh text.data)).2 : ℚ) := by
          exact_mod_cast h2
        refine ⟨?_, ?_, ?_, h2⟩
        · exact le_min (by nlinarith) (by norm_num)
        · exact min_le_right _ _
        · exact lt_min (by nlinarith) (by norm_num)
  rcases hmain with ⟨h, hlt⟩ | ⟨h, hlt⟩ | ⟨h1, h2, h3, h4⟩
  · refine ⟨Or.inl h, ?_, ?_⟩
    · rw [h]
      constructor
      · intro hh
        norm_num at hh
      · intro hh
        omega
    · intro hne
      exact absurd h hne
  · refine ⟨Or.inr ⟨le_of_eq h.symm, by rw [h]; norm_num⟩, ?_, ?_⟩
    · rw [h]
      constructor
      · intro hh
        norm_num at hh
      · intro hh
        omega
    · intro _
      rw [h]
      norm_num
  · exact ⟨Or.inr ⟨h1, h2⟩, ⟨fun _ => h4, fun _ => h3⟩, fun _ => lt_of_lt_of_le (by norm_num) h1⟩

theorem rule_confidence_gap_witness :
    ((classifyByRules "walmart").2 = 0 ∨
      (7 / 10 ≤ (classifyByRules "walmart").2 ∧ (classifyByRules "walmart").2 ≤ 1)) ∧
    (8 / 10 < (classifyByRules "walmart").2 ↔ 2 ≤ (bestRule (lowerCh "walmart".data)).2) ∧
    ((classifyByRules "walmart").2 ≠ 0 → 0 < (classifyByRules "walmart").2) :=
  rule_confidence_gap "walmart"

theorem firstFiveScan_none (ls : List (List Char))
    (h : ∀ l ∈ ls, upperHit (stripCh l) = none ∧ merchantHit (stripCh l) = none) :
    firstFiveScan ls = none := by
  induction ls with
  | nil => rfl
  | cons l ls ih =>
    have hl := h l (List.mem_cons_self _ _)
    unfold firstFiveScan
    simp only [hl.1, hl.2]
    exact ih (fun x hx => h x (List.mem_cons_of_mem _ hx))

/-- C5 (amended): when no line among the first five triggers the uppercase
branch or the known-merchant branch, `extract_merchant` returns the first
line longer than 3 characters after stripping, truncated to 50 characters —
and under that hypothesis it returns `None` exactly when every line of the
text has at most 3 characters after stripping, so a text whose non-empty
lines are all of length 3 or less also yields `None`. -/
theorem extract_merchant_fallback (text : String)
    (h : ∀ l ∈ (splitLines text.data).take 5,
        upperHit (stripCh l) = none ∧ merchantHit (stripCh l) = none) :
    extractMerchant text =
      (((splitLines text.data).map stripCh).find? (fun l => 3 < l.length)).map
        (fun l => (⟨l.take 50⟩ : String)) ∧
    (extractMerchant text = none ↔
      ∀ l ∈ splitLines text.data, (stripCh l).length ≤ 3) := by
  have hscan := firstFiveScan_none _ h
  have h1 : extractMerchant text =
      (((splitLines text.data).map stripCh).find? (fun l => 3 < l.length)).map
        (fun l => (⟨l.take 50⟩ : String)) := by
    unfold extractMerchant
    simp only [hscan]
    cases hf : ((splitLines text.data).map stripCh).find? (fun l => 3 < l.length) with
    | none => simp
    | some l => simp
  refine ⟨h1, ?_⟩
  rw [h1]
  constructor
  · intro hn
    have hf : ((splitLines text.data).map stripCh).find? (fun l => 3 < l.length) = none := by
      cases hf : ((splitLines text.data).map stripCh).find? (fun l => 3 < l.length) with
      | none => rfl
      | some l =>
        rw [hf] at hn
        cases hn
    intro l hl
    have := List.find?_eq_none.mp hf (stripCh l) (List.mem_map_of_mem _ hl)
    simpa using this
  · intro hall
    have hf : ((splitLines text.data).map stripCh).find? (fun l => 3 < l.length) = none := by
      rw [List.find?_eq_none]
      intro x hx
      obtain ⟨l, hl, rfl⟩ := List.mem_map.mp hx
      simpa using hall l hl
    rw [hf]
    rfl

/-- C5 counterexample: the text "ab" has a non-empty line yet
`extract_merchant` returns `None`, refuting the claim that `None` is
returned only when the text has no non-empty lines (the fallback requires a
stripped length strictly greater than 3, not mere non-emptiness). -/
theorem extract_merchant_none_counterexample :
    extractMerchant "ab" = none ∧
    (splitLines "ab".data).any (fun l => !(stripCh l).isEmpty) = true := by decide

theorem extract_merchant_fallback_witness :
    (∀ l ∈ (splitLines "ab\nhello world".data).take 5,
        upperHit (stripCh l) = none ∧ merchantHit (stripCh l) = none) ∧
    (extractMerchant "ab\nhello world" =
      (((splitLines "ab\nhello world".data).map stripCh).find?
          (fun l => 3 < l.length)).map (fun l => (⟨l.take 50⟩ : String)) ∧
     (extractMerchant "ab\nhello world" = none ↔
      ∀ l ∈ splitLines "ab\nhello world".data, (stripCh l).length ≤ 3)) :=
  ⟨by decide, extract_merchant_fallback "ab\nhello world" (by decide)⟩

/-- C8: the parse confidence is exactly the weighted sum of the four
indicator signals with weights 0.3, 0.4, 0.2 and 0.1 (the cap at 1 never
binds, since the weights sum to 1); a receipt with all four signals scores
exactly 1, and removing any single field lowers the score by exactly that
field's weight. -/
theorem parse_confidence_formula (d : ParsedReceipt)
    (h : dateSignal d = true ∧ totalSignal d = true ∧ merchantSignal d = true ∧
        itemsSignal d = true) :
    calculateConfidence d = 1 ∧
    calculateConfidence { d with date := none } = 1 - 3 / 10 ∧
    calculateConfidence { d with total := none } = 1 - 4 / 10 ∧
    calculateConfidence { d with merchant := none } = 1 - 2 / 10 ∧
    calculateConfidence { d with items := [] } = 1 - 1 / 10 ∧
    (∀ e : ParsedReceipt, calculateConfidence e =
      (if dateSignal e then (3 : ℚ) / 10 else 0) +
      (if totalSignal e then (4 : ℚ) / 10 else 0) +
      (if merchantSignal e then (2 : ℚ) / 10 else 0) +
      (if itemsSignal e then (1 : ℚ) / 10 else 0)) := by
  obtain ⟨h1, h2, h3, h4⟩ := h
  have key : ∀ e : ParsedReceipt, calculateConfidence e =
      (if dateSignal e then (3 : ℚ) / 10 else 0) +
      (if totalSignal e then (4 : ℚ) / 10 else 0) +
      (if merchantSignal e then (2 : ℚ) / 10 else 0) +
      (if itemsSignal e then (1 : ℚ) / 10 else 0) := by
    intro e
    unfold calculateConfidence
    split_ifs <;> norm_num
  have e1 : dateSignal { d with date := none } = false := rfl
  have e2 : totalSignal { d with total := none } = false := rfl
  have e3 : merchantSignal { d with merchant := none } = false := rfl
  have e4 : itemsSignal { d with items := [] } = false := rfl
  have f12 : totalSignal { d with date := none } = totalSignal d := rfl
  have f13 : merchantSignal { d with date := none } = merchantSignal d := rfl
  have f14 : itemsSignal { d with date := none } = itemsSignal d := rfl
  have f21 : dateSignal { d with total := none } = dateSignal d := rfl
  have f23 : merchantSignal { d with total := none } = merchantSignal d := rfl
  have f24 : itemsSignal { d with total := none } = itemsSignal d := rfl
  have f31 : dateSignal { d with merchant := none } = dateSignal d := rfl
  have f32 : totalSignal { d with merchant := none } = totalSignal d := rfl
  have f34 : itemsSignal { d with merchant := none } = itemsSignal d := rfl
  have f41 : dateSignal { d with items := [] } = dateSignal d := rfl
  have f42 : totalSignal { d with items := [] } = totalSignal d := rfl
  have f43 : merchantSignal { d with items := [] } = merchantSignal d := rfl
  refine ⟨?_, ?_, ?_, ?_, ?_, key⟩
  · rw [key d, h1, h2, h3, h4]
    norm_num
  · rw [key _, e1, f12, f13, f14, h2, h3, h4]
    norm_num
  · rw [key _, e2, f21, f23, f24, h1, h3, h4]
    norm_num
  · rw [key _, e3, f31, f32, f34, h1, h2, h4]
    norm_num
  · rw [key _, e4, f41, f42, f43, h1, h2, h3]
    norm_num

theorem parse_confidence_formula_witness :
    (dateSignal fullReceipt = true ∧ totalSignal fullReceipt = true ∧
      merchantSignal fullReceipt = true ∧ itemsSignal fullReceipt = true) ∧
    calculateConfidence fullReceipt = 1 :=
  ⟨by decide, (parse_confidence_formula fullReceipt (by decide)).1⟩

/-- C9: whenever the primary pattern set yields candidates, `extract_total`
returns their maximum (after normalising the comma separator); the fallback
currency pattern is consulted only when the primary set yields none; and on
the text with both "Subtotal: 10.00" and "Total: 12.50" the result is
12.50. -/
theorem extract_total_max (text : String) :
    (primaryAmounts text.data ≠ [] →
      extractTotal text = (primaryAmounts text.data).max?) ∧
    (primaryAmounts text.data = [] →
      extractTotal text = (fallbackAmounts text.data).max?) ∧
    extractTotal "Subtotal: 10.00\nTotal: 12.50" = some (25 / 2) := by
  refine ⟨?_, ?_, by with_unfolding_all rfl⟩
  · intro h
    unfold extractTotal
    cases hm : (primaryAmounts text.data).max? with
    | none => exact absurd (List.max?_eq_none_iff.mp hm) h
    | some m => rfl
  · intro h
    unfold extractTotal
    rw [h]
    cases hm : (fallbackAmounts text.data).max? with
    | none => rfl
    | some m => rfl

theorem extract_total_max_witness :
    primaryAmounts "Total: 12.50".data ≠ [] ∧
    extractTotal "Total: 12.50" = (primaryAmounts "Total: 12.50".data).max? :=
  ⟨by decide, (extract_total_max "Total: 12.50").1 (by decide)⟩

/-- C3 (amended): `detect_trend` reports insufficient data for fewer than
two monthly buckets — not three, as claimed — and with at least two buckets
classifies the fitted slope as increasing exactly when it exceeds 10,
decreasing exactly when it is below -10, and stable otherwise, so a slope of
exactly 10 is stable. -/
theorem detect_trend_classification (rows : List ExpenseRow) :
    ((monthlyTotals rows).length < 2 → detectTrend rows = Trend.insufficient) ∧
    (2 ≤ (monthlyTotals rows).length →
      (detectTrend rows = Trend.increasing ↔ 10 < fitSlope (monthlyTotals rows)) ∧
      (detectTrend rows = Trend.decreasing ↔ fitSlope (monthlyTotals rows) < -10) ∧
      (detectTrend rows = Trend.stable ↔
        -10 ≤ fitSlope (monthlyTotals rows) ∧ fitSlope (monthlyTotals rows) ≤ 10)) := by
  constructor
  · intro h
    unfold detectTrend
    simp only [if_pos h]
  · intro h
    have hn : ¬ (monthlyTotals rows).length < 2 := by omega
    unfold detectTrend
    simp only [if_neg hn]
    split_ifs with h1 h2
    · exact ⟨⟨fun _ => h1, fun _ => rfl⟩,
        ⟨fun hx => absurd hx (by decide), fun hx => absurd hx (by linarith)⟩,
        ⟨fun hx => absurd hx (by decide), fun hx => absurd h1 (not_lt.mpr hx.2)⟩⟩
    · exact ⟨⟨fun hx => absurd hx (by decide), fun hx => absurd hx h1⟩,
        ⟨fun _ => h2, fun _ => rfl⟩,
        ⟨fun hx => absurd hx (by decide), fun hx => absurd h2 (not_lt.mpr hx.1)⟩⟩
    · exact ⟨⟨fun hx => absurd hx (by decide), fun hx => absurd hx h1⟩,
        ⟨fun hx => absurd hx (by decide), fun hx => absurd hx h2⟩,
        ⟨fun _ => ⟨not_lt.mp h2, not_lt.mp h1⟩, fun _ => rfl⟩⟩

/-- C3 counterexample: a series aggregating into exactly two monthly
buckets — fewer than the claimed minimum of three — is not reported as
insufficient data: `detect_trend` classifies it as increasing. -/
theorem detect_trend_two_buckets :
    (monthlyTotals seriesTwoMonths).length = 2 ∧ (2 : Nat) < 3 ∧
    detectTrend seriesTwoMonths = Trend.increasing :=
  ⟨by with_unfolding_all rfl, by norm_num, by with_unfolding_all rfl⟩

theorem detect_trend_classification_witness :
    2 ≤ (monthlyTotals seriesSlopeTen).length ∧
    detectTrend seriesSlopeTen = Trend.stable :=
  ⟨by with_unfolding_all decide,
   ((detect_trend_classification seriesSlopeTen).2
       (by with_unfolding_all decide)).2.2.mpr (by with_unfolding_all decide)⟩

theorem mem_insertByKey (key : Expense → ℚ) (x a : Expense) (l : List Expense) :
    a ∈ insertByKey key x l ↔ a = x ∨ a ∈ l := by
  induction l with
  | nil => simp [insertByKey]
  | cons y ys ih =>
    rw [insertByKey]
    split
    · simp only [List.mem_cons, ih]
      tauto
    · simp only [List.mem_cons]

theorem mem_sortDescBy (key : Expense → ℚ) (a : Expense) (l : List Expense) :
    a ∈ sortDescBy key l ↔ a ∈ l := by
  induction l with
  | nil => simp [sortDescBy]
  | cons x xs ih =>
    rw [sortDescBy, mem_insertByKey]
    simp [ih]

theorem length_insertByKey (key : Expense → ℚ) (x : Expense) (l : List Expense) :
    (insertByKey key x l).length = l.length + 1 := by
  induction l with
  | nil => rfl
  | cons y ys ih =>
    rw [insertByKey]
    split
    · simp [ih]
    · simp

theorem length_sortDescBy (key : Expense → ℚ) (l : List Expense) :
    (sortDescBy key l).length = l.length := by
  induction l with
  | nil => rfl
  | cons x xs ih =>
    rw [sortDescBy, length_insertByKey, ih, List.length_cons]

theorem pairwise_insertByKey (key : Expense → ℚ) (x : Expense) (l : List Expense)
    (hl : l.Pairwise (fun a b => key b ≤ key a)) :
    (insertByKey key x l).Pairwise (fun a b => key b ≤ key a) := by
  induction l with
  | nil => simp [insertByKey]
  | cons y ys ih =>
    rw [insertByKey]
    rcases List.pairwise_cons.mp hl with ⟨hy, hys⟩
    split
    · rename_i hxy
      refine List.pairwise_cons.mpr ⟨?_, ih hys⟩
      intro b hb
      rcases (mem_insertByKey key x b ys).mp hb with rfl | hbys
      · exact le_of_lt hxy
      · exact hy b hbys
    · rename_i hxy
      push_neg at hxy
      refine List.pairwise_cons.mpr ⟨?_, hl⟩
      intro b hb
      rcases List.mem_cons.mp hb with rfl | hbys
      · exact hxy
      · exact le_trans (hy b hbys) hxy

theorem pairwise_sortDescBy (key : Expense → ℚ) (l : List Expense) :
    (sortDescBy key l).Pairwise (fun a b => key b ≤ key a) := by
  induction l with
  | nil => simp [sortDescBy]
  | cons x xs ih => exact pairwise_insertByKey key x _ ih

theorem foldl_add_nonneg (l : List ℚ) (acc : ℚ) (hacc : 0 ≤ acc)
    (h : ∀ x ∈ l, 0 ≤ x) : 0 ≤ l.foldl (· + ·) acc := by
  induction l generalizing acc with
  | nil => exact hacc
  | cons x xs ih =>
    exact ih _ (add_nonneg hacc (h x (List.mem_cons_self _ _)))
      (fun y hy => h y (List.mem_cons_of_mem _ hy))

theorem qsum_nonneg (l : List ℚ) (h : ∀ x ∈ l, 0 ≤ x) : 0 ≤ qsum l :=
  foldl_add_nonneg l 0 le_rfl h

theorem amountVar_nonneg (es : List Expense) : 0 ≤ amountVar es := by
  unfold amountVar
  apply div_nonneg
  · apply qsum_nonneg
    intro x hx
    obtain ⟨e, -, rfl⟩ := List.mem_map.mp hx
    positivity
  · exact Nat.cast_nonneg _

theorem zscore_gt_iff (es : List Expense) (e : Expense) (τ : ℚ)
    (hτ : 0 ≤ τ) (hv : 0 < amountVar es) :
    ((τ : ℝ) < zScoreReal es e ↔
      τ ^ 2 * amountVar es < (e.amount - amountMean es) ^ 2) := by
  unfold zScoreReal
  have hvR : (0 : ℝ) < ((amountVar es : ℚ) : ℝ) := by exact_mod_cast hv
  have hσ : 0 < Real.sqrt ((amountVar es : ℚ) : ℝ) := Real.sqrt_pos.mpr hvR
  have hτR : (0 : ℝ) ≤ ((τ : ℚ) : ℝ) := by exact_mod_cast hτ
  rw [lt_div_iff hσ]
  have hsq : (((τ : ℚ) : ℝ) * Real.sqrt ((amountVar es : ℚ) : ℝ)) ^ 2 =
      ((τ : ℚ) : ℝ) ^ 2 * ((amountVar es : ℚ) : ℝ) := by
    rw [mul_pow, Real.sq_sqrt hvR.le]
  constructor
  · intro h
    have h2 := pow_lt_pow_left h (mul_nonneg hτR hσ.le) (two_ne_zero)
    rw [hsq, sq_abs] at h2
    have h3 : ((τ ^ 2 * amountVar es : ℚ) : ℝ) <
        (((e.amount - amountMean es) ^ 2 : ℚ) : ℝ) := by
      push_cast
      convert h2 using 1
    exact_mod_cast h3
  · intro h
    have hcast : ((τ ^ 2 * amountVar es : ℚ) : ℝ) <
        (((e.amount - amountMean es) ^ 2 : ℚ) : ℝ) := by exact_mod_cast h
    apply lt_of_pow_lt_pow_left 2 (abs_nonneg _)
    rw [hsq, sq_abs]
    push_cast at hcast
    convert hcast using 1

theorem zscore_mono (es : List Expense) (hv : 0 < amountVar es) (a b : Expense)
    (h : (b.amount - amountMean es) ^ 2 ≤ (a.amount - amountMean es) ^ 2) :
    zScoreReal es b ≤ zScoreReal es a := by
  unfold zScoreReal
  have hvR : (0 : ℝ) < ((amountVar es : ℚ) : ℝ) := by exact_mod_cast hv
  have hσ : 0 < Real.sqrt ((amountVar es : ℚ) : ℝ) := Real.sqrt_pos.mpr hvR
  rw [div_le_div_right hσ]
  have hcast : (((b.amount - amountMean es) ^ 2 : ℚ) : ℝ) ≤
      (((a.amount - amountMean es) ^ 2 : ℚ) : ℝ) := by exact_mod_cast h
  apply le_of_pow_le_pow_left two_ne_zero (abs_nonneg _)
  rw [sq_abs, sq_abs]
  push_cast at hcast
  convert hcast using 1

theorem perm_insertByKey (key : Expense → ℚ) (x : Expense) (l : List Expense) :
    (insertByKey key x l).Perm (x :: l) := by
  induction l with
  | nil => exact List.Perm.refl _
  | cons y ys ih =>
    rw [insertByKey]
    split
    · exact (ih.cons y).trans (List.Perm.swap x y ys)
    · exact List.Perm.refl _

theorem perm_sortDescBy (key : Expense → ℚ) (l : List Expense) :
    (sortDescBy key l).Perm l := by
  induction l with
  | nil => exact List.Perm.refl _
  | cons x xs ih =>
    rw [sortDescBy]
    exact (perm_insertByKey key x (sortDescBy key xs)).trans (ih.cons x)

/-- C7: `detect_anomalies` returns the empty sequence below ten records or
at zero deviation; otherwise every returned record is an input record whose
z-score strictly exceeds the threshold, the result is sorted descending by
z-score, its length is exactly the smaller of twenty and the number of
passing records, every passing record left out of the result has a z-score
no greater than that of every returned record (so when more than twenty
records pass, the result consists of twenty greatest ones), and whenever at
most twenty records pass the result is a permutation of the passing
records, each of which appears in it. -/
theorem detect_anomalies_spec (es : List Expense) (τ : ℚ) (hτ : 0 ≤ τ) :
    (es.length < 10 → detectAnomalies es τ = []) ∧
    (amountVar es = 0 → detectAnomalies es τ = []) ∧
    (10 ≤ es.length → amountVar es ≠ 0 →
      (∀ e ∈ detectAnomalies es τ, e ∈ es ∧ (τ : ℝ) < zScoreReal es e) ∧
      (detectAnomalies es τ).length = min 20 (es.filter (anomalyTest es τ)).length ∧
      (detectAnomalies es τ).Pairwise (fun a b => zScoreReal es b ≤ zScoreReal es a) ∧
      (∀ e ∈ es, (τ : ℝ) < zScoreReal es e → e ∉ detectAnomalies es τ →
        ∀ r ∈ detectAnomalies es τ, zScoreReal es e ≤ zScoreReal es r) ∧
      ((es.filter (anomalyTest es τ)).length ≤ 20 →
        (detectAnomalies es τ).Perm (es.filter (anomalyTest es τ)) ∧
        ∀ e ∈ es, (τ : ℝ) < zScoreReal es e → e ∈ detectAnomalies es τ)) := by
  refine ⟨?_, ?_, ?_⟩
  · intro h
    unfold detectAnomalies
    rw [if_pos h]
  · intro h
    unfold detectAnomalies
    split_ifs with h1
    · rfl
    · rfl
  · intro hlen hv0
    have hvpos : 0 < amountVar es := lt_of_le_of_ne (amountVar_nonneg es) (Ne.symm hv0)
    have hda : detectAnomalies es τ =
        (sortDescBy (fun e => (e.amount - amountMean es) ^ 2)
          (es.filter (anomalyTest es τ))).take 20 := by
      unfold detectAnomalies
      rw [if_neg (by omega), if_neg hv0]
    refine ⟨?_, ?_, ?_, ?_, ?_⟩
    · intro e he
      rw [hda] at he
      have hs := List.mem_of_mem_take he
      have hf := (mem_sortDescBy _ e _).mp hs
      have hmf := List.mem_filter.mp hf
      refine ⟨hmf.1, ?_⟩
      have htest : τ ^ 2 * amountVar es < (e.amount - amountMean es) ^ 2 :=
        of_decide_eq_true hmf.2
      exact (zscore_gt_iff es e τ hτ hvpos).mpr htest
    · rw [hda, List.length_take, length_sortDescBy]
    · rw [hda]
      have hp := pairwise_sortDescBy (fun e => (e.amount - amountMean es) ^ 2)
        (es.filter (anomalyTest es τ))
      have hpt := hp.sublist (List.take_sublist 20
        (sortDescBy (fun e => (e.amount - amountMean es) ^ 2)
          (es.filter (anomalyTest es τ))))
      exact hpt.imp (fun h => zscore_mono es hvpos _ _ h)
    · intro e he hz hnotin r hr
      rw [hda] at hnotin hr
      have htest : anomalyTest es τ e = true :=
        decide_eq_true ((zscore_gt_iff es e τ hτ hvpos).mp hz)
      have hemem : e ∈ sortDescBy (fun e => (e.amount - amountMean es) ^ 2)
          (es.filter (anomalyTest es τ)) :=
        (mem_sortDescBy _ e _).mpr (List.mem_filter.mpr ⟨he, htest⟩)
      have hsplit := List.take_append_drop 20
        (sortDescBy (fun e => (e.amount - amountMean es) ^ 2)
          (es.filter (anomalyTest es τ)))
      have hedrop : e ∈ (sortDescBy (fun e => (e.amount - amountMean es) ^ 2)
          (es.filter (anomalyTest es τ))).drop 20 := by
        rw [← hsplit] at hemem
        rcases List.mem_append.mp hemem with h | h
        · exact absurd h hnotin
        · exact h
      have hp := pairwise_sortDescBy (fun e => (e.amount - amountMean es) ^ 2)
        (es.filter (anomalyTest es τ))
      rw [← hsplit] at hp
      have hdom := (List.pairwise_append.mp hp).2.2 r hr e hedrop
      exact zscore_mono es hvpos r e hdom
    · intro hfl
      have hlen2 : (sortDescBy (fun e => (e.amount - amountMean es) ^ 2)
          (es.filter (anomalyTest es τ))).length ≤ 20 := by
        rw [length_sortDescBy]
        exact hfl
      have htake := List.take_of_length_le hlen2
      constructor
      · rw [hda, htake]
        exact perm_sortDescBy _ _
      · intro e he hz
        rw [hda, htake]
        exact (mem_sortDescBy _ e _).mpr (List.mem_filter.mpr ⟨he,
          decide_eq_true ((zscore_gt_iff es e τ hτ hvpos).mp hz)⟩)

theorem detect_anomalies_spec_witness :
    (0 : ℚ) ≤ 3 ∧
    ((seventeenExpenses.length < 10 → detectAnomalies seventeenExpenses 3 = []) ∧
     (amountVar seventeenExpenses = 0 → detectAnomalies seventeenExpenses 3 = []) ∧
     (10 ≤ seventeenExpenses.length → amountVar seventeenExpenses ≠ 0 →
       (∀ e ∈ detectAnomalies seventeenExpenses 3,
         e ∈ seventeenExpenses ∧ ((3 : ℚ) : ℝ) < zScoreReal seventeenExpenses e) ∧
       (detectAnomalies seventeenExpenses 3).length =
         min 20 (seventeenExpenses.filter (anomalyTest seventeenExpenses 3)).length ∧
       (detectAnomalies seventeenExpenses 3).Pairwise
         (fun a b => zScoreReal seventeenExpenses b ≤ zScoreReal seventeenExpenses a) ∧
       (∀ e ∈ seventeenExpenses, ((3 : ℚ) : ℝ) < zScoreReal seventeenExpenses e →
         e ∉ detectAnomalies seventeenExpenses 3 →
         ∀ r ∈ detectAnomalies seventeenExpenses 3,
           zScoreReal seventeenExpenses e ≤ zScoreReal seventeenExpenses r) ∧
       ((seventeenExpenses.filter (anomalyTest seventeenExpenses 3)).length ≤ 20 →
         (detectAnomalies seventeenExpenses 3).Perm
           (seventeenExpenses.filter (anomalyTest seventeenExpenses 3)) ∧
         ∀ e ∈ seventeenExpenses, ((3 : ℚ) : ℝ) < zScoreReal seventeenExpenses e →
           e ∈ detectAnomalies seventeenExpenses 3))) :=
  ⟨by norm_num, detect_anomalies_spec seventeenExpenses 3 (by norm_num)⟩

theorem predict_seriesLinearUp :
    predictFutureExpenses seriesLinearUp 1 = some [pointFifty] := by
  have hlen : ¬ seriesLinearUp.length < minDataPoints := by with_unfolding_all decide
  unfold predictFutureExpenses
  rw [if_neg hlen]
  have hys : monthlyTotals seriesLinearUp = [10, 20, 30] := by with_unfolding_all rfl
  rw [hys]
  have h1 : List.range 1 = [0] := rfl
  rw [h1]
  simp only [List.map_cons, List.map_nil, Option.some.injEq, List.cons.injEq, and_true]
  have hraw : rawPred [10, 20, 30] (0 + 1) = 50 := by with_unfolding_all rfl
  have hvar : resVariance [10, 20, 30] = 0 := by with_unfolding_all rfl
  have hz : zOf confidenceLevel = 196 / 100 := by with_unfolding_all rfl
  simp only [forecastPoint, pointFifty, hraw, hvar, hz, Rat.cast_zero, Real.sqrt_zero,
    mul_zero, sub_zero, add_zero, ForecastPoint.mk.injEq]
  refine ⟨?_, ?_, ?_, rfl⟩
  · push_cast
    rw [max_eq_right (by norm_num)]
  · push_cast
    rw [max_eq_right (by norm_num)]
  · push_cast
    rfl

theorem predict_seriesSteepDown :
    predictFutureExpenses seriesSteepDown 1 = some [pointNegUpper] := by
  have hlen : ¬ seriesSteepDown.length < minDataPoints := by with_unfolding_all decide
  unfold predictFutureExpenses
  rw [if_neg hlen]
  have hys : monthlyTotals seriesSteepDown = [200, 100, 0] := by with_unfolding_all rfl
  rw [hys]
  have h1 : List.range 1 = [0] := rfl
  rw [h1]
  simp only [List.map_cons, List.map_nil, Option.some.injEq, List.cons.injEq, and_true]
  have hraw : rawPred [200, 100, 0] (0 + 1) = -200 := by with_unfolding_all rfl
  have hvar : resVariance [200, 100, 0] = 0 := by with_unfolding_all rfl
  have hz : zOf confidenceLevel = 196 / 100 := by with_unfolding_all rfl
  simp only [forecastPoint, pointNegUpper, hraw, hvar, hz, Rat.cast_zero, Real.sqrt_zero,
    mul_zero, sub_zero, add_zero, ForecastPoint.mk.injEq]
  refine ⟨?_, ?_, ?_, rfl⟩
  · push_cast
    rw [max_eq_left (by norm_num)]
  · push_cast
    rw [max_eq_left (by norm_num)]
  · push_cast
    rfl

/-- C1 (amended): on the success path every forecast point has
`lower_bound = max 0 (predicted - margin)` and
`upper_bound = predicted + margin` where the margin of error is
`z(confidence_level) * std(residuals)` — the z-score times the residual
standard error of the fit, one value shared by all forecast points of the
call — not z times 0.1 times the point's predicted amount. -/
theorem forecast_margin_residual_based (rows : List ExpenseRow) (periods : Nat)
    (pts : List ForecastPoint) (h : predictFutureExpenses rows periods = some pts)
    (j : Nat) (hj : j < pts.length) :
    (pts.get ⟨j, hj⟩).lower =
      max 0 (((rawPred (monthlyTotals rows) (j + 1) : ℚ) : ℝ) -
        ((zOf confidenceLevel : ℚ) : ℝ) *
          Real.sqrt ((resVariance (monthlyTotals rows) : ℚ) : ℝ)) ∧
    (pts.get ⟨j, hj⟩).upper =
      ((rawPred (monthlyTotals rows) (j + 1) : ℚ) : ℝ) +
        ((zOf confidenceLevel : ℚ) : ℝ) *
          Real.sqrt ((resVariance (monthlyTotals rows) : ℚ) : ℝ) := by
  unfold predictFutureExpenses at h
  split_ifs at h with h1
  cases h
  have hget : ((List.range periods).map
      (fun j => forecastPoint (monthlyTotals rows) (j + 1))).get ⟨j, hj⟩ =
      forecastPoint (monthlyTotals rows) (j + 1) := by
    rw [List.get_eq_getElem, List.getElem_map, List.getElem_range]
  rw [hget]
  exact ⟨rfl, rfl⟩

/-- C1 counterexample: for the thirty-record series with monthly sums 10,
20, 30 the fit is perfect, so the residual standard error and hence the
margin are zero and the forecast point is (50, 50, 50); under the claimed
formula the margin would be 1.96 times 0.1 times 50 and the lower bound
40.2, not 50. -/
theorem forecast_margin_counterexample :
    predictFutureExpenses seriesLinearUp 1 = some [pointFifty] ∧
    pointFifty.predicted = 50 ∧ pointFifty.lower = 50 ∧
    pointFifty.lower ≠ max 0 (pointFifty.predicted -
      ((zOf confidenceLevel : ℚ) : ℝ) * ((1 / 10) * pointFifty.predicted)) := by
  refine ⟨predict_seriesLinearUp, rfl, rfl, ?_⟩
  have hz : zOf confidenceLevel = 196 / 100 := by with_unfolding_all rfl
  rw [hz]
  show (50 : ℝ) ≠ max 0 (50 - ((196 / 100 : ℚ) : ℝ) * (1 / 10 * 50))
  push_cast
  rw [max_eq_right (by norm_num)]
  norm_num

theorem forecast_margin_residual_based_witness :
    predictFutureExpenses seriesLinearUp 1 = some [pointFifty] ∧
    (([pointFifty].get ⟨0, by norm_num⟩).lower =
      max 0 (((rawPred (monthlyTotals seriesLinearUp) (0 + 1) : ℚ) : ℝ) -
        ((zOf confidenceLevel : ℚ) : ℝ) *
          Real.sqrt ((resVariance (monthlyTotals seriesLinearUp) : ℚ) : ℝ)) ∧
     ([pointFifty].get ⟨0, by norm_num⟩).upper =
      ((rawPred (monthlyTotals seriesLinearUp) (0 + 1) : ℚ) : ℝ) +
        ((zOf confidenceLevel : ℚ) : ℝ) *
          Real.sqrt ((resVariance (monthlyTotals seriesLinearUp) : ℚ) : ℝ)) :=
  ⟨predict_seriesLinearUp,
   forecast_margin_residual_based seriesLinearUp 1 [pointFifty]
     predict_seriesLinearUp 0 (by norm_num)⟩

/-- C2 (amended): on the success path every forecast point has a
nonnegative predicted amount and a nonnegative lower bound, but
`upper_bound ≥ lower_bound` holds exactly when `upper_bound ≥ 0`, which
fails when the raw prediction is below minus the margin of error (the upper
bound is not clamped). -/
theorem forecast_bounds_invariant (rows : List ExpenseRow) (periods : Nat)
    (pts : List ForecastPoint) (h : predictFutureExpenses rows periods = some pts) :
    ∀ p ∈ pts, 0 ≤ p.predicted ∧ 0 ≤ p.lower ∧ (p.lower ≤ p.upper ↔ 0 ≤ p.upper) := by
  intro p hp
  unfold predictFutureExpenses at h
  split_ifs at h with h1
  cases h
  obtain ⟨j, hj, rfl⟩ := List.mem_map.mp hp
  unfold forecastPoint
  dsimp only
  have hm : 0 ≤ ((zOf confidenceLevel : ℚ) : ℝ) *
      Real.sqrt ((resVariance (monthlyTotals rows) : ℚ) : ℝ) := by
    apply mul_nonneg
    · have hz : zOf confidenceLevel = 196 / 100 := by with_unfolding_all rfl
      rw [hz]
      push_cast
      norm_num
    · exact Real.sqrt_nonneg _
  refine ⟨le_max_left _ _, le_max_left _ _, ?_⟩
  constructor
  · intro hle
    exact le_trans (le_max_left _ _) hle
  · intro hu
    apply max_le hu
    linarith

/-- C2 counterexample: for the thirty-record series with monthly sums 200,
100, 0 the raw prediction for the next period is -200 with a zero margin,
so the returned point has lower bound 0 but upper bound -200: the upper
bound is strictly below the lower bound, refuting the claimed invariant. -/
theorem forecast_upper_below_lower :
    predictFutureExpenses seriesSteepDown 1 = some [pointNegUpper] ∧
    pointNegUpper.upper < pointNegUpper.lower := by
  refine ⟨predict_seriesSteepDown, ?_⟩
  show (-200 : ℝ) < 0
  norm_num

theorem forecast_bounds_invariant_witness :
    predictFutureExpenses seriesSteepDown 1 = some [pointNegUpper] ∧
    (∀ p ∈ [pointNegUpper],
      0 ≤ p.predicted ∧ 0 ≤ p.lower ∧ (p.lower ≤ p.upper ↔ 0 ≤ p.upper)) :=
  ⟨predict_seriesSteepDown,
   forecast_bounds_invariant seriesSteepDown 1 [pointNegUpper] predict_seriesSteepDown⟩
